import Mathlib

/-!
Verification of the credential-pool manager of the gemini-balance repository
(`app/service/key/key_manager.py`).

The Python module is shallowly embedded: the `KeyManager` class becomes a
structure, Python dicts become association lists of `String × Nat`, the
`itertools.cycle` iterator becomes an explicit position counter, and every
method becomes a pure function that threads the manager state.  A Python
operation that can raise (KeyError on `d[k]` for a missing key, IndexError on
a list subscript, StopIteration on `next(cycle([]))`) is modelled by an
`Option` result whose `none` stands for the raised exception; the original
state is untouched in that case because the mutation in the source occurs
only after the successful lookup.  The module-level singleton and the
`_preserved_*` globals become the `LifecycleState` structure.
-/

namespace GeminiBalance

/-- Python dict lookup `d.get(k)` on a `Dict[str, int]` modelled as an
association list: the first binding of `k` wins. -/
def dictGet (d : List (String × Nat)) (k : String) : Option Nat :=
  match d with
  | [] => none
  | (k2, v) :: rest => if k2 = k then some v else dictGet rest k

/-- Python `d.get(k, 0)`. -/
def dictGetD (d : List (String × Nat)) (k : String) : Nat :=
  (dictGet d k).getD 0

/-- Python dict assignment `d[k] = v`: update the existing binding in place,
or append a new binding at the end (insertion order, as in CPython). -/
def dictSet (d : List (String × Nat)) (k : String) (v : Nat) : List (String × Nat) :=
  match d with
  | [] => [(k, v)]
  | (k2, v2) :: rest => if k2 = k then (k, v) :: rest else (k2, v2) :: dictSet rest k v

/-- Python `{key: 0 for key in keys}`. -/
def initDict (keys : List String) : List (String × Nat) :=
  keys.map (fun k => (k, 0))

/-- The externally configured values read by `KeyManager.__init__` and
`handle_api_failure` from `app.config.config.settings`. -/
structure Settings where
  MAX_FAILURES : Nat
  PAID_KEY : String
  KEY_USAGE_MODE : String
  KEY_USAGE_THRESHOLD : Nat
  MAX_RETRIES : Nat
deriving Repr, DecidableEq

/-- State of a `KeyManager` instance (`key_manager.py`, lines 13-42).
The two `itertools.cycle` iterators are represented by the index of the next
element to be yielded (`key_cycle_pos`, `vertex_key_cycle_pos`); the locks
have no content in a sequential embedding and are dropped. -/
structure KeyManager where
  api_keys : List String
  vertex_api_keys : List String
  key_cycle_pos : Nat
  vertex_key_cycle_pos : Nat
  key_failure_counts : List (String × Nat)
  vertex_key_failure_counts : List (String × Nat)
  MAX_FAILURES : Nat
  paid_key : String
  usage_mode : String
  usage_threshold : Nat
  key_usage_counts : List (String × Nat)
  vertex_key_usage_counts : List (String × Nat)
  current_fixed_key_index : Nat
  current_vertex_fixed_key_index : Nat
deriving Repr, DecidableEq

/-- `KeyManager.__init__(api_keys, vertex_api_keys)`. -/
def KeyManager.init (s : Settings) (api_keys vertex_api_keys : List String) : KeyManager :=
  { api_keys := api_keys
    vertex_api_keys := vertex_api_keys
    key_cycle_pos := 0
    vertex_key_cycle_pos := 0
    key_failure_counts := initDict api_keys
    vertex_key_failure_counts := initDict vertex_api_keys
    MAX_FAILURES := s.MAX_FAILURES
    paid_key := s.PAID_KEY
    usage_mode := s.KEY_USAGE_MODE
    usage_threshold := s.KEY_USAGE_THRESHOLD
    key_usage_counts := initDict api_keys
    vertex_key_usage_counts := initDict vertex_api_keys
    current_fixed_key_index := 0
    current_vertex_fixed_key_index := 0 }

/-- `next(cycle)` for `itertools.cycle(keys)` at position `pos`: yields the
element at `pos` and advances; on an empty list `next` raises StopIteration,
modelled by `none`. -/
def cycleNext (keys : List String) (pos : Nat) : Option (String × Nat) :=
  match keys[pos % keys.length]? with
  | none => none
  | some k => some (k, (pos + 1) % keys.length)

/-- `KeyManager._get_fixed_key` (lines 103-124).  An empty pool returns the
sentinel `""` without touching any state; otherwise the key at the sticky
index is read, the index advances by one (wrapping) when that key's usage
count has reached the threshold, and the (possibly newly selected) key's
usage count is incremented.  A sticky index outside the pool would raise
IndexError in Python (`none` here). -/
def _get_fixed_key (m : KeyManager) : Option (String × KeyManager) :=
  if m.api_keys.isEmpty then some ("", m)
  else
    match m.api_keys[m.current_fixed_key_index]? with
    | none => none
    | some ck =>
      if m.usage_threshold ≤ dictGetD m.key_usage_counts ck then
        match m.api_keys[(m.current_fixed_key_index + 1) % m.api_keys.length]? with
        | none => none
        | some ck2 =>
          some (ck2, { m with
            current_fixed_key_index := (m.current_fixed_key_index + 1) % m.api_keys.length
            key_usage_counts := dictSet m.key_usage_counts ck2 (dictGetD m.key_usage_counts ck2 + 1) })
      else
        some (ck, { m with
          key_usage_counts := dictSet m.key_usage_counts ck (dictGetD m.key_usage_counts ck + 1) })

/-- `KeyManager._get_fixed_vertex_key` (lines 138-159), the vertex-pool twin
of `_get_fixed_key`. -/
def _get_fixed_vertex_key (m : KeyManager) : Option (String × KeyManager) :=
  if m.vertex_api_keys.isEmpty then some ("", m)
  else
    match m.vertex_api_keys[m.current_vertex_fixed_key_index]? with
    | none => none
    | some ck =>
      if m.usage_threshold ≤ dictGetD m.vertex_key_usage_counts ck then
        match m.vertex_api_keys[(m.current_vertex_fixed_key_index + 1) % m.vertex_api_keys.length]? with
        | none => none
        | some ck2 =>
          some (ck2, { m with
            current_vertex_fixed_key_index := (m.current_vertex_fixed_key_index + 1) % m.vertex_api_keys.length
            vertex_key_usage_counts := dictSet m.vertex_key_usage_counts ck2 (dictGetD m.vertex_key_usage_counts ck2 + 1) })
      else
        some (ck, { m with
          vertex_key_usage_counts := dictSet m.vertex_key_usage_counts ck (dictGetD m.vertex_key_usage_counts ck + 1) })

/-- `KeyManager.get_next_key` (lines 91-101): fixed mode delegates to
`_get_fixed_key`; any other mode advances the round-robin cycle and
increments the yielded key's usage count. -/
def get_next_key (m : KeyManager) : Option (String × KeyManager) :=
  if m.usage_mode = "fixed" then _get_fixed_key m
  else
    match cycleNext m.api_keys m.key_cycle_pos with
    | none => none
    | some (key, pos2) =>
      some (key, { m with
        key_cycle_pos := pos2
        key_usage_counts := dictSet m.key_usage_counts key (dictGetD m.key_usage_counts key + 1) })

/-- `KeyManager.get_next_vertex_key` (lines 126-136). -/
def get_next_vertex_key (m : KeyManager) : Option (String × KeyManager) :=
  if m.usage_mode = "fixed" then _get_fixed_vertex_key m
  else
    match cycleNext m.vertex_api_keys m.vertex_key_cycle_pos with
    | none => none
    | some (key, pos2) =>
      some (key, { m with
        vertex_key_cycle_pos := pos2
        vertex_key_usage_counts := dictSet m.vertex_key_usage_counts key (dictGetD m.vertex_key_usage_counts key + 1) })

/-- `KeyManager.set_usage_mode` (lines 47-53): returns `False` and leaves the
state alone for a mode outside `{polling, fixed}`. -/
def set_usage_mode (m : KeyManager) (mode : String) : Bool × KeyManager :=
  if mode = "polling" ∨ mode = "fixed" then (true, { m with usage_mode := mode })
  else (false, m)

/-- `KeyManager.is_key_valid` (lines 161-164).  The source subscripts the
failure-count dict directly (`self.key_failure_counts[key]`), so a key absent
from the dict raises KeyError, modelled by `none`. -/
def is_key_valid (m : KeyManager) (key : String) : Option Bool :=
  (dictGet m.key_failure_counts key).map (fun c => decide (c < m.MAX_FAILURES))

/-- `KeyManager.is_vertex_key_valid` (lines 166-169). -/
def is_vertex_key_valid (m : KeyManager) (key : String) : Option Bool :=
  (dictGet m.vertex_key_failure_counts key).map (fun c => decide (c < m.MAX_FAILURES))

/-- Loop body of `KeyManager.get_next_working_key` (lines 212-218), with
explicit fuel standing for the unbounded `while True`.  `none` is either an
exception propagating out of `is_key_valid`/`get_next_key` or exhausted fuel. -/
def nextWorkingAux : Nat → String → KeyManager → String → Option (String × KeyManager)
  | 0, _, _, _ => none
  | fuel + 1, initial, m, current =>
    match is_key_valid m current with
    | none => none
    | some true => some (current, m)
    | some false =>
      match get_next_key m with
      | none => none
      | some (k, m2) =>
        if k = initial then some (k, m2) else nextWorkingAux fuel initial m2 k

/-- `KeyManager.get_next_working_key` (lines 207-218): draw a first key, then
keep drawing until a valid key appears or the draw cycles back to the first
key, which is then returned as a fallback even if invalid. -/
def get_next_working_key (fuel : Nat) (m : KeyManager) : Option (String × KeyManager) :=
  match get_next_key m with
  | none => none
  | some (k, m1) => nextWorkingAux fuel k m1 k

/-- `KeyManager.handle_api_failure` (lines 233-244): subscripting
`key_failure_counts[api_key]` raises KeyError for an unknown key (`none`,
before any mutation); otherwise the count is incremented and either a next
working key is fetched (`retries < settings.MAX_RETRIES`) or `""` is
returned. -/
def handle_api_failure (s : Settings) (fuel : Nat) (m : KeyManager)
    (api_key : String) (retries : Nat) : Option (String × KeyManager) :=
  match dictGet m.key_failure_counts api_key with
  | none => none
  | some c =>
    let m1 := { m with key_failure_counts := dictSet m.key_failure_counts api_key (c + 1) }
    if retries < s.MAX_RETRIES then get_next_working_key fuel m1
    else some ("", m1)

/-- `KeyManager.handle_vertex_api_failure` (lines 246-253): increments the
vertex failure count and falls off the end of the function, i.e. returns
Python `None` (the inner `none` of the result) — it never consults `retries`
and never produces a key.  The outer `none` is the KeyError for an unknown
key. -/
def handle_vertex_api_failure (m : KeyManager) (api_key : String)
    (retries : Nat) : Option (Option String × KeyManager) :=
  match dictGet m.vertex_key_failure_counts api_key with
  | none => none
  | some c =>
    some (none, { m with
      vertex_key_failure_counts := dictSet m.vertex_key_failure_counts api_key (c + 1) })

/-- The module-level singleton and the `_preserved_*` globals of
`key_manager.py` (lines 373-385). -/
structure LifecycleState where
  _singleton_instance : Option KeyManager
  _preserved_failure_counts : Option (List (String × Nat))
  _preserved_vertex_failure_counts : Option (List (String × Nat))
  _preserved_old_api_keys_for_reset : Option (List String)
  _preserved_vertex_old_api_keys_for_reset : Option (List String)
  _preserved_next_key_in_cycle : Option String
  _preserved_vertex_next_key_in_cycle : Option String
  _preserved_usage_counts : Option (List (String × Nat))
  _preserved_vertex_usage_counts : Option (List (String × Nat))
  _preserved_fixed_key_index : Option Nat
  _preserved_vertex_fixed_key_index : Option Nat
deriving Repr, DecidableEq

/-- The module's state at import time: no singleton, every preserved global
`None`. -/
def LifecycleState.start : LifecycleState :=
  { _singleton_instance := none
    _preserved_failure_counts := none
    _preserved_vertex_failure_counts := none
    _preserved_old_api_keys_for_reset := none
    _preserved_vertex_old_api_keys_for_reset := none
    _preserved_next_key_in_cycle := none
    _preserved_vertex_next_key_in_cycle := none
    _preserved_usage_counts := none
    _preserved_vertex_usage_counts := none
    _preserved_fixed_key_index := none
    _preserved_vertex_fixed_key_index := none }

/-- Python truthiness of an optional dict: `None` and `{}` are falsy. -/
def truthyDict (d : Option (List (String × Nat))) : Bool :=
  match d with
  | none => false
  | some l => !l.isEmpty

/-- Python truthiness of an optional list. -/
def truthyList (l : Option (List String)) : Bool :=
  match l with
  | none => false
  | some l2 => !l2.isEmpty

/-- Python truthiness of an optional string: `None` and `""` are falsy. -/
def truthyStr (s : Option String) : Bool :=
  match s with
  | none => false
  | some s2 => !(s2 = "")

/-- Python `list.index(x)`: index of the first occurrence, ValueError
(`none`) when absent. -/
def listIndex? (l : List String) (x : String) : Option Nat :=
  match l with
  | [] => none
  | a :: rest => if a = x then some 0 else (listIndex? rest x).map (· + 1)

/-- Count-inheritance of `get_key_manager_instance` (lines 426-435 and
twins): start from `{key: 0 for key in new_keys}` and copy over every
preserved count whose key is present. -/
def mergeStep (acc : List (String × Nat)) (p : String × Nat) : List (String × Nat) :=
  if (dictGet acc p.1).isSome then dictSet acc p.1 p.2 else acc

/-- The inherited count dict for a new key list. -/
def mergeCounts (newKeys : List String) (preserved : List (String × Nat)) :
    List (String × Nat) :=
  preserved.foldl mergeStep (initDict newKeys)

/-- One restoration step for a count dict: applied only when the preserved
dict is truthy (lines 426, 437, 451, 462). -/
def applyPreservedCounts (preserved : Option (List (String × Nat)))
    (newKeys : List String) (current : List (String × Nat)) : List (String × Nat) :=
  if truthyDict preserved then mergeCounts newKeys (preserved.getD []) else current

/-- Restoration of a fixed-key index (lines 474-486): clamped with
`min(preserved, len(keys) - 1)`, skipped when nothing was preserved or the
new pool is empty. -/
def restoredFixedIndex (preserved : Option Nat) (newKeys : List String)
    (current : Nat) : Nat :=
  match preserved with
  | none => current
  | some idx => if newKeys.isEmpty then current else min idx (newKeys.length - 1)

/-- The scan of `get_key_manager_instance` (lines 500-509) that walks the old
key list cyclically from the preserved hint looking for the first key that
survives into the new list. -/
def findStartKeyAux (oldKeys newKeys : List String) (startIdx : Nat) :
    Nat → Nat → Option String
  | _, 0 => none
  | i, r + 1 =>
    match oldKeys[(startIdx + i) % oldKeys.length]? with
    | none => none
    | some cand =>
      if newKeys.contains cand then some cand
      else findStartKeyAux oldKeys newKeys startIdx (i + 1) r

/-- `start_key_for_new_cycle` (lines 489-519): guarded by the truthiness of
the preserved old key list, the preserved hint, and the new list; a
ValueError from `.index` is caught and yields nothing. -/
def computeStartKey (oldKeys? : Option (List String)) (hint? : Option String)
    (newKeys : List String) : Option String :=
  if truthyList oldKeys? && truthyStr hint? && !newKeys.isEmpty then
    let oldKeys := oldKeys?.getD []
    match listIndex? oldKeys (hint?.getD "") with
    | none => none
    | some startIdx => findStartKeyAux oldKeys newKeys startIdx 0 oldKeys.length
  else none

/-- `advanceCycle len n pos` models `for _ in range(n): next(cycle)` on a
cycle of length `len` standing at `pos`. -/
def advanceCycle (len : Nat) : Nat → Nat → Nat
  | 0, pos => pos
  | n + 1, pos => advanceCycle len n ((pos + 1) % len)

/-- Cycle-start restoration (lines 521-543): advance the fresh cycle to the
index of the determined start key; a ValueError from `.index` is caught and
the cycle stays at the beginning. -/
def restoredCyclePos (oldKeys? : Option (List String)) (hint? : Option String)
    (newKeys : List String) (current : Nat) : Nat :=
  let startKey := computeStartKey oldKeys? hint? newKeys
  if truthyStr startKey && !newKeys.isEmpty then
    match listIndex? newKeys (startKey.getD "") with
    | none => current
    | some targetIdx => advanceCycle newKeys.length targetIdx current
  else current

/-- `get_key_manager_instance(api_keys, vertex_api_keys)` (lines 388-628).
A live singleton is returned as is.  Otherwise a `None` key-list argument
raises ValueError (`none`); an empty-but-present list is accepted.  The new
instance inherits failure counts, usage counts, fixed indices and cycle
positions from the preserved globals, and every preserved global is cleared.
The restorations write disjoint fields and each reads only preserved state,
so the sequential updates of the source are expressed as one record update. -/
def get_key_manager_instance (s : Settings) (api_keys vertex_api_keys : Option (List String))
    (g : LifecycleState) : Option (KeyManager × LifecycleState) :=
  match g._singleton_instance with
  | some inst => some (inst, g)
  | none =>
    match api_keys with
    | none => none
    | some aks =>
      match vertex_api_keys with
      | none => none
      | some vks =>
      let inst0 := KeyManager.init s aks vks
      let instF : KeyManager := { inst0 with
        key_failure_counts :=
          applyPreservedCounts g._preserved_failure_counts aks inst0.key_failure_counts
        vertex_key_failure_counts :=
          applyPreservedCounts g._preserved_vertex_failure_counts vks inst0.vertex_key_failure_counts
        key_usage_counts :=
          applyPreservedCounts g._preserved_usage_counts aks inst0.key_usage_counts
        vertex_key_usage_counts :=
          applyPreservedCounts g._preserved_vertex_usage_counts vks inst0.vertex_key_usage_counts
        current_fixed_key_index :=
          restoredFixedIndex g._preserved_fixed_key_index aks inst0.current_fixed_key_index
        current_vertex_fixed_key_index :=
          restoredFixedIndex g._preserved_vertex_fixed_key_index vks inst0.current_vertex_fixed_key_index
        key_cycle_pos :=
          restoredCyclePos g._preserved_old_api_keys_for_reset g._preserved_next_key_in_cycle
            aks inst0.key_cycle_pos
        vertex_key_cycle_pos :=
          restoredCyclePos g._preserved_vertex_old_api_keys_for_reset g._preserved_vertex_next_key_in_cycle
            vks inst0.vertex_key_cycle_pos }
      some (instF,
        { _singleton_instance := some instF
          _preserved_failure_counts := none
          _preserved_vertex_failure_counts := none
          _preserved_old_api_keys_for_reset := none
          _preserved_vertex_old_api_keys_for_reset := none
          _preserved_next_key_in_cycle := none
          _preserved_vertex_next_key_in_cycle := none
          _preserved_usage_counts := none
          _preserved_vertex_usage_counts := none
          _preserved_fixed_key_index := none
          _preserved_vertex_fixed_key_index := none })

/-- `reset_key_manager_instance()` (lines 631-701).  Counters, key lists and
fixed indices are snapshotted first (lines 641-658, from the pre-call state);
then `get_next_key` is called on the live instance to learn the next-key hint
(mutating that instance, which is discarded right after), and likewise
`get_next_vertex_key` on the resulting state; every raised exception during
hint capture is caught and turns the hint into `None`. -/
def reset_key_manager_instance (g : LifecycleState) : LifecycleState :=
  match g._singleton_instance with
  | none => g
  | some inst =>
    let hintPair : Option String × KeyManager :=
      if inst.api_keys.isEmpty then (none, inst)
      else
        match get_next_key inst with
        | none => (none, inst)
        | some (k, m2) => (some k, m2)
    let inst1 := hintPair.2
    let vhint : Option String :=
      if inst1.vertex_api_keys.isEmpty then none
      else
        match get_next_vertex_key inst1 with
        | none => none
        | some (k, _) => some k
    { _singleton_instance := none
      _preserved_failure_counts := some inst.key_failure_counts
      _preserved_vertex_failure_counts := some inst.vertex_key_failure_counts
      _preserved_usage_counts := some inst.key_usage_counts
      _preserved_vertex_usage_counts := some inst.vertex_key_usage_counts
      _preserved_fixed_key_index := some inst.current_fixed_key_index
      _preserved_vertex_fixed_key_index := some inst.current_vertex_fixed_key_index
      _preserved_old_api_keys_for_reset := some inst.api_keys
      _preserved_vertex_old_api_keys_for_reset := some inst.vertex_api_keys
      _preserved_next_key_in_cycle := hintPair.1
      _preserved_vertex_next_key_in_cycle := vhint }

/-- Observation used by the spec's "round-robin resume point": the key the
next polling-mode `get_next_key` call would yield on this instance. -/
def pollingResume (m : KeyManager) : Option String :=
  (cycleNext m.api_keys m.key_cycle_pos).map (fun p => p.1)

/-- Iterated `get_next_key`, collecting the returned keys in order.  `none`
as soon as one call raises. -/
def runNextKeys (m : KeyManager) : Nat → Option (List String)
  | 0 => some []
  | n + 1 =>
    match get_next_key m with
    | none => none
    | some (k, m2) => (runNextKeys m2 n).map (fun rest => k :: rest)

/-- The key returned by the `i`-th `get_next_key` call (0-indexed), starting
from state `m`. -/
def outputAt (m : KeyManager) : Nat → Option String
  | 0 => (get_next_key m).map (fun p => p.1)
  | n + 1 =>
    match get_next_key m with
    | none => none
    | some (_, m2) => outputAt m2 n

/-- Invariant of the fixed-mode sweep from a fresh state: after `q·T + r`
calls (`r < T`), the sticky index points at position `q` (or `q - 1` right
after a block boundary, when `r = 0`), pool position `j` has usage `T` for
`j < q`, `r` for `j = q`, and `0` beyond. -/
def FixedInv (keys : List String) (T q r : Nat) (m : KeyManager) : Prop :=
  m.usage_mode = "fixed" ∧ m.api_keys = keys ∧ m.usage_threshold = T ∧
  r < T ∧
  m.current_fixed_key_index = (if r = 0 then q - 1 else q) ∧
  ∀ j, (hj : j < keys.length) → dictGetD m.key_usage_counts keys[j] =
    (if j < q then T else if j = q then r else 0)

/-! ### Concrete instances used by witnesses and counterexamples -/

/-- Settings with fixed mode, usage threshold 2, max failures 3, max retries 3. -/
def cfgFixed : Settings := ⟨3, "", "fixed", 2, 3⟩

/-- Settings with polling mode, usage threshold 10, max failures 5, max retries 3. -/
def cfgPolling : Settings := ⟨5, "", "polling", 10, 3⟩

/-- Fresh fixed-mode manager over the pool of the spec's concrete scenario. -/
def c1m : KeyManager := KeyManager.init cfgFixed ["K1", "K2", "K3"] []

/-- Fresh fixed-mode manager (threshold 2) over `[K1, K2]`. -/
def c1wm : KeyManager := KeyManager.init cfgFixed ["K1", "K2"] []

/-- Fresh polling manager over `[A, B]`. -/
def c2m0 : KeyManager := KeyManager.init cfgPolling ["A", "B"] []

/-- `c2m0` after one polling `get_next_key` call (which returned `A`) and a
`set_usage_mode("fixed")`: cycle stands at `B`, sticky index at `A`. -/
def c2m : KeyManager :=
  { c2m0 with key_cycle_pos := 1, key_usage_counts := [("A", 1), ("B", 0)], usage_mode := "fixed" }

/-- Lifecycle state after the first acquire of `c2m0`. -/
def c2g1 : LifecycleState := { LifecycleState.start with _singleton_instance := some c2m0 }

/-- Lifecycle state holding the live manager `c2m`. -/
def c2g : LifecycleState := { LifecycleState.start with _singleton_instance := some c2m }

/-- Manager whose pool is `[A]`; the key `B` is absent. -/
def c4m : KeyManager := KeyManager.init cfgPolling ["A"] []

/-- Manager whose pool is `[X, Y]`. -/
def c4wm : KeyManager := KeyManager.init cfgPolling ["X", "Y"] []

/-- Manager with an empty primary pool and vertex pool `[V1, V2]`. -/
def c5m : KeyManager := KeyManager.init cfgPolling [] ["V1", "V2"]

/-- Manager over `[A, B, C]` with failure counts `{A: 0, B: 2, C: 5}`
(max failures 5, so `C` is invalid). -/
def c6wm : KeyManager :=
  { KeyManager.init cfgPolling ["A", "B", "C"] [] with
    key_failure_counts := [("A", 0), ("B", 2), ("C", 5)] }

/-- Lifecycle state holding the live manager `c6wm`. -/
def c6wg : LifecycleState := { LifecycleState.start with _singleton_instance := some c6wm }

/-- Fresh fixed-mode manager with both pools empty. -/
def c9mF : KeyManager := KeyManager.init cfgFixed [] []

/-- Fresh polling manager with both pools empty. -/
def c9mP : KeyManager := KeyManager.init cfgPolling [] []

/-- Fixed-mode manager over `[A, B]` where `A` has 99 failures (invalid,
max failures 3) while `B` is valid. -/
def c10m : KeyManager :=
  { KeyManager.init cfgFixed ["A", "B"] [] with
    key_failure_counts := [("A", 99), ("B", 0)] }

/-- `c10m` after one `get_next_key` call (which returned `A`). -/
def c10m1 : KeyManager := { c10m with key_usage_counts := [("A", 1), ("B", 0)] }

/-- Fresh polling manager over `[A, B]` holding a live lifecycle slot. -/
def c2wg : LifecycleState := { LifecycleState.start with _singleton_instance := some c2m0 }

/-! ### Lemmas about the dict model -/

theorem dictGet_dictSet_self (d : List (String × Nat)) (k : String) (v : Nat) :
    dictGet (dictSet d k v) k = some v := by
  induction d with
  | nil => simp [dictSet, dictGet]
  | cons p rest ih =>
    obtain ⟨k2, v2⟩ := p
    by_cases h : k2 = k
    · simp [dictSet, h, dictGet]
    · simp [dictSet, h, dictGet, ih]

theorem dictGet_dictSet_ne (d : List (String × Nat)) (k k2 : String) (v : Nat)
    (h : k2 ≠ k) : dictGet (dictSet d k v) k2 = dictGet d k2 := by
  have h2 : k ≠ k2 := Ne.symm h
  induction d with
  | nil => simp [dictSet, dictGet, h2]
  | cons p rest ih =>
    obtain ⟨k3, v3⟩ := p
    by_cases h3 : k3 = k
    · subst h3
      simp [dictSet, dictGet, h2]
    · simp only [dictSet, h3, if_false]
      by_cases h4 : k3 = k2 <;> simp [dictGet, h4, ih]

theorem dictGetD_dictSet_self (d : List (String × Nat)) (k : String) (v : Nat) :
    dictGetD (dictSet d k v) k = v := by
  simp [dictGetD, dictGet_dictSet_self]

theorem dictGetD_dictSet_ne (d : List (String × Nat)) (k k2 : String) (v : Nat)
    (h : k2 ≠ k) : dictGetD (dictSet d k v) k2 = dictGetD d k2 := by
  simp [dictGetD, dictGet_dictSet_ne d k k2 v h]

theorem dictGet_initDict (keys : List String) (k : String) :
    dictGet (initDict keys) k = if k ∈ keys then some 0 else none := by
  induction keys with
  | nil => simp [initDict, dictGet]
  | cons a rest ih =>
    by_cases h : a = k
    · subst h; simp [initDict, dictGet]
    · have h2 : k ≠ a := Ne.symm h
      simp only [initDict, List.map_cons, dictGet, h, if_false] at ih ⊢
      rw [ih]
      simp [List.mem_cons, h2]

theorem dictGet_eq_none_of_not_mem (d : List (String × Nat)) (k : String)
    (h : k ∉ d.map Prod.fst) : dictGet d k = none := by
  induction d with
  | nil => simp [dictGet]
  | cons p rest ih =>
    simp only [List.map_cons, List.mem_cons, not_or] at h
    simp [dictGet, Ne.symm h.1, ih h.2]

theorem foldl_mergeStep_get (pres : List (String × Nat)) :
    ∀ (acc : List (String × Nat)) (k : String), (pres.map Prod.fst).Nodup →
      dictGet (pres.foldl mergeStep acc) k =
        match dictGet pres k with
        | some v => if (dictGet acc k).isSome then some v else dictGet acc k
        | none => dictGet acc k := by
  induction pres with
  | nil => intro acc k _; simp [dictGet]
  | cons p rest ih =>
    intro acc k hnd
    obtain ⟨a, v⟩ := p
    simp only [List.map_cons, List.nodup_cons] at hnd
    have hstep : ∀ k2, dictGet (mergeStep acc (a, v)) k2 =
        if k2 = a then (if (dictGet acc a).isSome then some v else dictGet acc a)
        else dictGet acc k2 := by
      intro k2
      by_cases hk : k2 = a
      · subst hk
        by_cases hs : (dictGet acc k2).isSome <;>
          simp [mergeStep, hs, dictGet_dictSet_self]
      · by_cases hs : (dictGet acc a).isSome <;>
          simp [mergeStep, hs, hk, dictGet_dictSet_ne acc a k2 v hk]
    rw [List.foldl_cons, ih _ _ hnd.2]
    by_cases hak : a = k
    · subst hak
      have hra : dictGet rest a = none :=
        dictGet_eq_none_of_not_mem rest a hnd.1
      simp [dictGet, hra, hstep]
    · have h2 : dictGet ((a, v) :: rest) k = dictGet rest k := by
        simp [dictGet, hak]
      rw [h2, hstep k, if_neg (fun h3 => hak h3.symm)]

theorem mergeCounts_get (newKeys : List String) (pres : List (String × Nat))
    (k : String) (hnd : (pres.map Prod.fst).Nodup) :
    dictGet (mergeCounts newKeys pres) k =
      if k ∈ newKeys then
        (match dictGet pres k with
         | some v => some v
         | none => some 0)
      else none := by
  rw [mergeCounts, foldl_mergeStep_get pres _ k hnd]
  cases hp : dictGet pres k <;>
    by_cases hk : k ∈ newKeys <;>
      simp [dictGet_initDict, hk]

theorem advanceCycle_eq (len : Nat) (hlen : 0 < len) :
    ∀ (n pos : Nat), pos < len → advanceCycle len n pos = (pos + n) % len := by
  intro n
  induction n with
  | zero => intro pos hpos; simp [advanceCycle, Nat.mod_eq_of_lt hpos]
  | succ n ih =>
    intro pos hpos
    rw [advanceCycle, ih _ (Nat.mod_lt _ hlen), Nat.mod_add_mod]
    congr 1
    omega

theorem listIndex?_of_mem (l : List String) (x : String) (h : x ∈ l) :
    ∃ t, listIndex? l x = some t ∧ t < l.length ∧ l[t]? = some x := by
  induction l with
  | nil => simp at h
  | cons a rest ih =>
    by_cases ha : a = x
    · exact ⟨0, by simp [listIndex?, ha], by simp, by simp [ha]⟩
    · have hmem : x ∈ rest := by
        rcases List.mem_cons.mp h with h2 | h2
        · exact absurd h2.symm ha
        · exact h2
      obtain ⟨t, h1, h2, h3⟩ := ih hmem
      exact ⟨t + 1, by simp [listIndex?, ha, h1], by simpa using h2, by simpa using h3⟩

theorem initDict_dom (keys : List String) (k : String) :
    (dictGet (initDict keys) k).isSome ↔ k ∈ keys := by
  rw [dictGet_initDict]
  by_cases h : k ∈ keys <;> simp [h]

/-! ### Claim theorems -/

/-- **C1 counterexample.**  Pool `[K1, K2, K3]`, fixed mode, threshold 2,
all usage counts zero: the code's first eight `get_next_key` calls return
`K1, K1, K2, K2, K3, K3, K1, K2` — the eighth call returns `K2`, not the
`K1` the claim's indefinitely-repeating pattern `K1,K1,K2,K2,K3,K3,K1,K1,…`
requires, because usage counts are never reset so after the first sweep every
key is already at the threshold. -/
theorem c1_counterexample :
    runNextKeys c1m 8 = some ["K1", "K1", "K2", "K2", "K3", "K3", "K1", "K2"] ∧
    (["K1", "K1", "K2", "K2", "K3", "K3", "K1", "K2"] : List String) ≠
      ["K1", "K1", "K2", "K2", "K3", "K3", "K1", "K1"] :=
  ⟨by decide, by decide⟩

/-- **C4 counterexample.**  `is_key_valid` subscripts the failure-count dict
directly, so querying a key absent from the pool raises KeyError (`none` in
the embedding) instead of reporting a boolean result: the pool of `c4m` is
`[A]` and `is_key_valid c4m "B"` raises. -/
theorem c4_counterexample :
    is_key_valid c4m "B" = none ∧ "B" ∉ c4m.api_keys :=
  ⟨rfl, by decide⟩

/-- **C4 (amended).**  For every key absent from the pool, `is_key_valid`
raises a lookup error (KeyError, `none`) rather than reporting a boolean
failure; for every key present in the pool it returns a boolean without
raising.  The hypothesis ties the failure-count domain to the pool, which
holds for every constructed manager. -/
theorem c4_amended (m : KeyManager) (k : String)
    (hdom : ∀ k2, (dictGet m.key_failure_counts k2).isSome ↔ k2 ∈ m.api_keys) :
    (k ∉ m.api_keys → is_key_valid m k = none) ∧
    (k ∈ m.api_keys → ∃ b, is_key_valid m k = some b) := by
  constructor
  · intro hk
    have hnone : dictGet m.key_failure_counts k = none := by
      cases h : dictGet m.key_failure_counts k with
      | none => rfl
      | some c => exact absurd ((hdom k).mp (by simp [h])) hk
    simp [is_key_valid, hnone]
  · intro hk
    obtain ⟨c, hc⟩ := Option.isSome_iff_exists.mp ((hdom k).mpr hk)
    exact ⟨decide (c < m.MAX_FAILURES), by simp [is_key_valid, hc]⟩

theorem c4_witness : is_key_valid c4wm "Z" = none :=
  (c4_amended c4wm "Z" (fun k2 => initDict_dom ["X", "Y"] k2)).1 (by decide)

/-- **C5.**  Evaluation of `handle_vertex_api_failure` at a failing input:
vertex pool `[V1, V2]`, key `V1`, `retries = 0` which is strictly below the
retry ceiling (`MAX_RETRIES = 3`).  The code increments `V1`'s failure count
but returns Python `None` (the inner `none`): it never returns a next
working vertex key and never consults `retries`, contradicting its own
`-> str` annotation and the behaviour of its primary-pool twin
`handle_api_failure`. -/
theorem c5_code_evaluation :
    (0 : Nat) < cfgPolling.MAX_RETRIES ∧
    handle_vertex_api_failure c5m "V1" 0 =
      some (none, { c5m with vertex_key_failure_counts := [("V1", 1), ("V2", 0)] }) :=
  ⟨by decide, rfl⟩

/-- **C7.**  `get_key_manager_instance`: a live singleton is returned
unchanged with the key-list arguments ignored; with no live singleton, a
`None` primary or secondary key list raises ValueError (`none`) and no
manager is constructed, while present-but-empty lists are accepted and
construction succeeds. -/
theorem c7_acquire (s : Settings) (g : LifecycleState) :
    (∀ inst aks vks, g._singleton_instance = some inst →
        get_key_manager_instance s aks vks g = some (inst, g)) ∧
    (g._singleton_instance = none →
        ∀ vks, get_key_manager_instance s none vks g = none) ∧
    (g._singleton_instance = none →
        ∀ aks, get_key_manager_instance s (some aks) none g = none) ∧
    (g._singleton_instance = none →
        ∀ aks vks, (get_key_manager_instance s (some aks) (some vks) g).isSome) := by
  refine ⟨?_, ?_, ?_, ?_⟩
  · intro inst aks vks h
    rw [get_key_manager_instance.eq_def, h]
  · intro h vks
    rw [get_key_manager_instance.eq_def, h]
  · intro h aks
    rw [get_key_manager_instance.eq_def, h]
  · intro h aks vks
    rw [get_key_manager_instance.eq_def, h]
    rfl

theorem c7_witness :
    get_key_manager_instance cfgPolling none (some []) LifecycleState.start = none ∧
    get_key_manager_instance cfgPolling (some ["A"]) none LifecycleState.start = none ∧
    (get_key_manager_instance cfgPolling (some []) (some []) LifecycleState.start).isSome :=
  ⟨(c7_acquire cfgPolling LifecycleState.start).2.1 rfl (some []),
   (c7_acquire cfgPolling LifecycleState.start).2.2.1 rfl ["A"],
   (c7_acquire cfgPolling LifecycleState.start).2.2.2 rfl [] []⟩

/-- **C8.**  `handle_api_failure` subscripts `key_failure_counts[api_key]`
first, so a key absent from the failure-count dict raises KeyError (`none`)
before any increment: no empty-string result is produced, the unknown key is
not treated as having count 0, and — since the raise precedes the mutation in
the source — all counters are left unchanged. -/
theorem c8_unknown_key_failure (s : Settings) (fuel : Nat) (m : KeyManager)
    (k : String) (retries : Nat) (h : dictGet m.key_failure_counts k = none) :
    handle_api_failure s fuel m k retries = none := by
  rw [handle_api_failure, h]

theorem c8_witness : handle_api_failure cfgPolling 5 c4m "B" 0 = none :=
  c8_unknown_key_failure cfgPolling 5 c4m "B" 0 rfl

/-- **C9.**  `get_next_key` on an empty pool is asymmetric by policy: in
fixed mode `_get_fixed_key` returns the sentinel `""` with the state
untouched, while in polling mode `next` on the cycle of an empty list raises
StopIteration (`none`); the same holds for the vertex pool. -/
theorem c9_empty_pool (m : KeyManager) :
    (m.api_keys = [] →
      (m.usage_mode = "fixed" → get_next_key m = some ("", m)) ∧
      (m.usage_mode = "polling" → get_next_key m = none)) ∧
    (m.vertex_api_keys = [] →
      (m.usage_mode = "fixed" → get_next_vertex_key m = some ("", m)) ∧
      (m.usage_mode = "polling" → get_next_vertex_key m = none)) := by
  constructor
  · intro he
    constructor
    · intro hm
      rw [get_next_key, if_pos hm, _get_fixed_key, if_pos (by simp [he])]
    · intro hm
      rw [get_next_key, if_neg (by simp [hm]), cycleNext, he]
      rfl
  · intro he
    constructor
    · intro hm
      rw [get_next_vertex_key, if_pos hm, _get_fixed_vertex_key, if_pos (by simp [he])]
    · intro hm
      rw [get_next_vertex_key, if_neg (by simp [hm]), cycleNext, he]
      rfl

theorem c9_witness :
    get_next_key c9mF = some ("", c9mF) ∧ get_next_key c9mP = none :=
  ⟨((c9_empty_pool c9mF).1 rfl).1 rfl, ((c9_empty_pool c9mP).1 rfl).2 rfl⟩

theorem fixed_call_inv (m : KeyManager) (K : String) (m1 : KeyManager)
    (hmode : m.usage_mode = "fixed") (h : get_next_key m = some (K, m1)) :
    m1.usage_mode = "fixed" ∧ m1.usage_threshold = m.usage_threshold ∧
    m1.key_failure_counts = m.key_failure_counts ∧
    ((m1.api_keys.isEmpty ∧ K = "" ∧ m1 = m) ∨
      m1.api_keys[m1.current_fixed_key_index]? = some K) := by
  rw [get_next_key, if_pos hmode, _get_fixed_key] at h
  split at h
  · next he =>
    simp only [Option.some.injEq, Prod.mk.injEq] at h
    obtain ⟨rfl, rfl⟩ := h
    exact ⟨hmode, rfl, rfl, Or.inl ⟨he, rfl, rfl⟩⟩
  · next he =>
    split at h
    · exact absurd h (by simp)
    · next ck hck =>
      split at h
      · next hth =>
        split at h
        · exact absurd h (by simp)
        · next ck2 hck2 =>
          simp only [Option.some.injEq, Prod.mk.injEq] at h
          obtain ⟨rfl, rfl⟩ := h
          refine ⟨hmode, rfl, rfl, Or.inr ?_⟩
          simpa using hck2
      · next hth =>
        simp only [Option.some.injEq, Prod.mk.injEq] at h
        obtain ⟨rfl, rfl⟩ := h
        refine ⟨hmode, rfl, rfl, Or.inr ?_⟩
        simpa using hck

/-- **C10.**  In fixed mode, when the key `K` returned by a `get_next_key`
call still has a usage count strictly below the threshold, a second call
returns the same `K`; consequently `get_next_working_key` returns `K` with
any positive fuel (its loop makes at most two `get_next_key` calls),
regardless of whether `K` is valid — in particular even when `K` has reached
the failure maximum while other pool keys are valid. -/
theorem c10_fixed_sticky (m : KeyManager) (K : String) (m1 : KeyManager)
    (hmode : m.usage_mode = "fixed")
    (h1 : get_next_key m = some (K, m1))
    (h2 : dictGetD m1.key_usage_counts K < m.usage_threshold)
    (h3 : (dictGet m1.key_failure_counts K).isSome) :
    (∃ m2, get_next_key m1 = some (K, m2)) ∧
    (∀ fuel, 1 ≤ fuel → ∃ m3, get_next_working_key fuel m = some (K, m3)) := by
  obtain ⟨hm1mode, hthr, _, hpos⟩ := fixed_call_inv m K m1 hmode h1
  have hsecond : ∃ m2, get_next_key m1 = some (K, m2) := by
    rcases hpos with ⟨hemp, hK, hm1⟩ | hidx
    · exact ⟨m1, by rw [get_next_key, if_pos hm1mode, _get_fixed_key, if_pos hemp, hK]⟩
    · have hne : ¬m1.api_keys.isEmpty := by
        cases hae : m1.api_keys with
        | nil => rw [hae] at hidx; simp at hidx
        | cons a l => simp [hae]
      have hth2 : ¬m1.usage_threshold ≤ dictGetD m1.key_usage_counts K := by
        rw [hthr]; omega
      exact ⟨{ m1 with key_usage_counts := dictSet m1.key_usage_counts K (dictGetD m1.key_usage_counts K + 1) }, by simp [get_next_key, _get_fixed_key, hm1mode, hne, hidx, hth2]⟩
  refine ⟨hsecond, ?_⟩
  intro fuel hfuel
  obtain ⟨fuel2, rfl⟩ : ∃ f, fuel = f + 1 := ⟨fuel - 1, by omega⟩
  have hred : get_next_working_key (fuel2 + 1) m =
      match is_key_valid m1 K with
      | none => none
      | some true => some (K, m1)
      | some false =>
        match get_next_key m1 with
        | none => none
        | some (k, m2) => if k = K then some (k, m2) else nextWorkingAux fuel2 K m2 k := by
    rw [get_next_working_key, h1]
    rfl
  rw [hred]
  obtain ⟨b, hb⟩ := Option.isSome_iff_exists.mp h3
  have hval : is_key_valid m1 K = some (decide (b < m1.MAX_FAILURES)) := by
    simp [is_key_valid, hb]
  rw [hval]
  cases hd : decide (b < m1.MAX_FAILURES) with
  | true => exact ⟨m1, rfl⟩
  | false =>
    obtain ⟨m2, hm2⟩ := hsecond
    rw [hm2]
    exact ⟨m2, by simp⟩

theorem c10_witness :
    (get_next_working_key 1 c10m).map (fun p => p.1) = some "A" ∧
    is_key_valid c10m1 "A" = some false ∧ is_key_valid c10m1 "B" = some true := by
  obtain ⟨m3, hm3⟩ :=
    (c10_fixed_sticky c10m "A" c10m1 rfl rfl (by decide) (by decide)).2 1 (by decide)
  rw [hm3]
  exact ⟨rfl, by decide, by decide⟩

theorem polling_step (m : KeyManager)
    (hmode : m.usage_mode = "polling") (hne : m.api_keys ≠ []) :
    ∃ k, m.api_keys[m.key_cycle_pos % m.api_keys.length]? = some k ∧
      get_next_key m = some (k, { m with
        key_cycle_pos := (m.key_cycle_pos + 1) % m.api_keys.length
        key_usage_counts := dictSet m.key_usage_counts k (dictGetD m.key_usage_counts k + 1) }) := by
  have hlen : 0 < m.api_keys.length := List.length_pos.mpr hne
  have hlt : m.key_cycle_pos % m.api_keys.length < m.api_keys.length := Nat.mod_lt _ hlen
  refine ⟨m.api_keys[m.key_cycle_pos % m.api_keys.length], List.getElem?_eq_getElem hlt, ?_⟩
  rw [get_next_key, if_neg (by rw [hmode]; decide), cycleNext,
    List.getElem?_eq_getElem hlt]

theorem polling_output (keys : List String) (hne : keys ≠ []) :
    ∀ (i : Nat) (m : KeyManager), m.usage_mode = "polling" → m.api_keys = keys →
      outputAt m i = keys[(m.key_cycle_pos + i) % keys.length]? := by
  intro i
  induction i with
  | zero =>
    intro m hmode hkeys
    obtain ⟨k, hk, hstep⟩ := polling_step m hmode (by rw [hkeys]; exact hne)
    rw [hkeys] at hk
    rw [outputAt, hstep]
    simpa using hk.symm
  | succ n ih =>
    intro m hmode hkeys
    obtain ⟨k, hk, hstep⟩ := polling_step m hmode (by rw [hkeys]; exact hne)
    have h1 : outputAt m (n + 1) =
        outputAt { m with
          key_cycle_pos := (m.key_cycle_pos + 1) % m.api_keys.length
          key_usage_counts := dictSet m.key_usage_counts k (dictGetD m.key_usage_counts k + 1) } n := by
      rw [outputAt, hstep]
    rw [h1, ih { m with
        key_cycle_pos := (m.key_cycle_pos + 1) % m.api_keys.length
        key_usage_counts := dictSet m.key_usage_counts k (dictGetD m.key_usage_counts k + 1) }
      hmode hkeys]
    show keys[((m.key_cycle_pos + 1) % m.api_keys.length + n) % keys.length]? =
      keys[(m.key_cycle_pos + (n + 1)) % keys.length]?
    have harith : m.key_cycle_pos + 1 + n = m.key_cycle_pos + (n + 1) := by omega
    rw [hkeys, Nat.mod_add_mod, harith]

/-- **C3.**  In polling mode over a non-empty pool: the `i`-th `get_next_key`
call returns the key at position `(cycle_pos + i) mod N` of the pool, so `N`
consecutive calls visit each pool position exactly once in construction
order (distinct outputs when the keys are distinct), the `(N+1)`-th call
returns the same key as the first, and every call increments exactly the
returned key's usage count by one, leaving all other usage counts
unchanged. -/
theorem c3_polling (m : KeyManager) (hmode : m.usage_mode = "polling")
    (hne : m.api_keys ≠ []) :
    (∀ i, outputAt m i = m.api_keys[(m.key_cycle_pos + i) % m.api_keys.length]?) ∧
    (m.api_keys.Nodup → ∀ i j, i < m.api_keys.length → j < m.api_keys.length →
      i ≠ j → outputAt m i ≠ outputAt m j) ∧
    outputAt m m.api_keys.length = outputAt m 0 ∧
    (∀ m2, m2.usage_mode = "polling" → ∀ k mnext, get_next_key m2 = some (k, mnext) →
      dictGetD mnext.key_usage_counts k = dictGetD m2.key_usage_counts k + 1 ∧
      ∀ k2, k2 ≠ k → dictGetD mnext.key_usage_counts k2 = dictGetD m2.key_usage_counts k2) := by
  have hout : ∀ i, outputAt m i = m.api_keys[(m.key_cycle_pos + i) % m.api_keys.length]? :=
    fun i => polling_output m.api_keys hne i m hmode rfl
  have hlen : 0 < m.api_keys.length := List.length_pos.mpr hne
  refine ⟨hout, ?_, ?_, ?_⟩
  · intro hnd i j hi hj hij hcon
    rw [hout i, hout j] at hcon
    have hi2 : (m.key_cycle_pos + i) % m.api_keys.length < m.api_keys.length :=
      Nat.mod_lt _ hlen
    have hj2 : (m.key_cycle_pos + j) % m.api_keys.length < m.api_keys.length :=
      Nat.mod_lt _ hlen
    rw [List.getElem?_eq_getElem hi2, List.getElem?_eq_getElem hj2,
      Option.some.injEq, hnd.getElem_inj_iff] at hcon
    have hmeq : i ≡ j [MOD m.api_keys.length] :=
      Nat.ModEq.add_left_cancel' m.key_cycle_pos hcon
    have : i % m.api_keys.length = j % m.api_keys.length := hmeq
    rw [Nat.mod_eq_of_lt hi, Nat.mod_eq_of_lt hj] at this
    exact hij this
  · rw [hout, hout, Nat.add_zero, Nat.add_mod_right]
  · intro m2 hmode2 k mnext hstep2
    rw [get_next_key, if_neg (by rw [hmode2]; decide)] at hstep2
    split at hstep2
    · exact absurd hstep2 (by simp)
    · next key pos2 hc =>
      simp only [Option.some.injEq, Prod.mk.injEq] at hstep2
      obtain ⟨rfl, rfl⟩ := hstep2
      exact ⟨dictGetD_dictSet_self _ _ _,
        fun k2 hk2 => dictGetD_dictSet_ne _ _ _ _ hk2⟩

theorem c3_witness :
    outputAt c2m0 0 = some "A" ∧ outputAt c2m0 2 = outputAt c2m0 0 :=
  ⟨(c3_polling c2m0 rfl (by decide)).1 0, (c3_polling c2m0 rfl (by decide)).2.2.1⟩

theorem dictGetD_initDict (keys : List String) (k : String) :
    dictGetD (initDict keys) k = 0 := by
  rw [dictGetD, dictGet_initDict]
  by_cases h : k ∈ keys <;> simp [h]

theorem fixed_sweep_step (keys : List String) (T q r : Nat) (m : KeyManager)
    (hnd : keys.Nodup) (hq : q < keys.length)
    (hInv : FixedInv keys T q r m) :
    ∃ m2, get_next_key m = some (keys[q], m2) ∧
      FixedInv keys T (if r + 1 = T then q + 1 else q) (if r + 1 = T then 0 else r + 1) m2 := by
  obtain ⟨hmode, hkeys, hthr, hrT, hidx, husage⟩ := hInv
  have hT : 0 < T := Nat.lt_of_le_of_lt (Nat.zero_le r) hrT
  have hlen : 0 < keys.length := Nat.lt_of_le_of_lt (Nat.zero_le q) hq
  have hne : ¬m.api_keys.isEmpty := by
    rw [hkeys]
    cases keys with
    | nil => simp at hlen
    | cons a l => simp
  have huseq : dictGetD m.key_usage_counts keys[q] = r := by
    have h0 := husage q hq
    simpa using h0
  by_cases hB : r = 0 ∧ q ≠ 0
  · obtain ⟨hr, hq0⟩ := hB
    have hq1 : 1 ≤ q := Nat.one_le_iff_ne_zero.mpr hq0
    have hidx2 : m.current_fixed_key_index = q - 1 := by rw [hidx, if_pos hr]
    have hqm1 : q - 1 < keys.length := by omega
    have hcur : m.api_keys[m.current_fixed_key_index]? = some keys[q - 1] := by
      rw [hkeys, hidx2, List.getElem?_eq_getElem hqm1]
    have husep : dictGetD m.key_usage_counts keys[q - 1] = T := by
      have h0 := husage (q - 1) hqm1
      rw [if_pos (by omega)] at h0
      exact h0
    have hth2 : m.usage_threshold ≤ dictGetD m.key_usage_counts keys[q - 1] := by
      rw [hthr, husep]
    have hadv : (m.current_fixed_key_index + 1) % m.api_keys.length = q := by
      rw [hidx2, hkeys, show q - 1 + 1 = q from by omega, Nat.mod_eq_of_lt hq]
    have hcur2 : m.api_keys[(m.current_fixed_key_index + 1) % m.api_keys.length]? = some keys[q] := by
      rw [hadv, hkeys, List.getElem?_eq_getElem hq]
    refine ⟨{ m with
        current_fixed_key_index := (m.current_fixed_key_index + 1) % m.api_keys.length
        key_usage_counts := dictSet m.key_usage_counts keys[q] (dictGetD m.key_usage_counts keys[q] + 1) }, ?_, ?_⟩
    · simp [get_next_key, _get_fixed_key, hmode, hne, hcur, hth2, hcur2]
    · refine ⟨hmode, hkeys, hthr, ?_, ?_, ?_⟩
      · by_cases h2 : r + 1 = T <;> simp [h2] <;> first | omega | (split_ifs <;> omega)
      · simp only [hadv]
        by_cases h2 : r + 1 = T <;> simp [h2] <;> first | omega | (split_ifs <;> omega)
      · intro j hj
        by_cases hjq : j = q
        · subst hjq
          simp only [dictGetD_dictSet_self, huseq]
          by_cases h2 : r + 1 = T <;> simp [h2] <;> first | omega | (split_ifs <;> omega)
        · have hne2 : keys[j] ≠ keys[q] := fun hcon => hjq (hnd.getElem_inj_iff.mp hcon)
          simp only [dictGetD_dictSet_ne _ _ _ _ hne2, husage j hj]
          by_cases h2 : r + 1 = T <;> simp [h2] <;> first | omega | (split_ifs <;> omega)
  · have hidx2 : m.current_fixed_key_index = q := by
      rw [hidx]
      rcases not_and_or.mp hB with hr | hq0
      · rw [if_neg hr]
      · have hq02 : q = 0 := not_not.mp hq0
        split_ifs <;> omega
    have hcur : m.api_keys[m.current_fixed_key_index]? = some keys[q] := by
      rw [hkeys, hidx2, List.getElem?_eq_getElem hq]
    have hth2 : ¬m.usage_threshold ≤ dictGetD m.key_usage_counts keys[q] := by
      rw [hthr, huseq]; omega
    refine ⟨{ m with key_usage_counts := dictSet m.key_usage_counts keys[q] (dictGetD m.key_usage_counts keys[q] + 1) }, ?_, ?_⟩
    · simp [get_next_key, _get_fixed_key, hmode, hne, hcur, hth2]
    · refine ⟨hmode, hkeys, hthr, ?_, ?_, ?_⟩
      · by_cases h2 : r + 1 = T <;> simp [h2] <;> first | omega | (split_ifs <;> omega)
      · simp only [hidx2]
        by_cases h2 : r + 1 = T <;> simp [h2] <;> first | omega | (split_ifs <;> omega)
      · intro j hj
        by_cases hjq : j = q
        · subst hjq
          simp only [dictGetD_dictSet_self, huseq]
          by_cases h2 : r + 1 = T <;> simp [h2] <;> first | omega | (split_ifs <;> omega)
        · have hne2 : keys[j] ≠ keys[q] := fun hcon => hjq (hnd.getElem_inj_iff.mp hcon)
          simp only [dictGetD_dictSet_ne _ _ _ _ hne2, husage j hj]
          by_cases h2 : r + 1 = T <;> simp [h2] <;> first | omega | (split_ifs <;> omega)

theorem fixed_sweep_run (keys : List String) (T : Nat) (hnd : keys.Nodup) :
    ∀ (a q r : Nat) (m : KeyManager), FixedInv keys T q r m →
      q * T + r + a < keys.length * T →
      outputAt m a = keys[(q * T + r + a) / T]? := by
  intro a
  induction a with
  | zero =>
    intro q r m hInv hbound
    have hrT : r < T := hInv.2.2.2.1
    have hT : 0 < T := Nat.lt_of_le_of_lt (Nat.zero_le r) hrT
    have hq : q < keys.length := by
      by_contra hcon
      push_neg at hcon
      have h3 : keys.length * T ≤ q * T := Nat.mul_le_mul_right T hcon
      omega
    obtain ⟨m2, hstep, _⟩ := fixed_sweep_step keys T q r m hnd hq hInv
    have hdiv : (q * T + r + 0) / T = q := by
      rw [Nat.add_zero, mul_comm, Nat.mul_add_div hT, Nat.div_eq_of_lt hrT, Nat.add_zero]
    rw [outputAt, hstep, hdiv, List.getElem?_eq_getElem hq]
    rfl
  | succ n ih =>
    intro q r m hInv hbound
    have hrT : r < T := hInv.2.2.2.1
    have hT : 0 < T := Nat.lt_of_le_of_lt (Nat.zero_le r) hrT
    have hq : q < keys.length := by
      by_contra hcon
      push_neg at hcon
      have h3 : keys.length * T ≤ q * T := Nat.mul_le_mul_right T hcon
      omega
    obtain ⟨m2, hstep, hInv2⟩ := fixed_sweep_step keys T q r m hnd hq hInv
    have h1 : outputAt m (n + 1) = outputAt m2 n := by
      rw [outputAt, hstep]
    have harith2 : (if r + 1 = T then q + 1 else q) * T + (if r + 1 = T then 0 else r + 1) + n
        = q * T + r + (n + 1) := by
      by_cases h2 : r + 1 = T
      · subst h2
        simp
        ring
      · simp [h2]
        ring
    rw [h1, ih (if r + 1 = T then q + 1 else q) (if r + 1 = T then 0 else r + 1) m2 hInv2
      (by rw [harith2]; exact hbound)]
    congr 1
    rw [harith2]

/-- **C1 (amended).**  From a fresh fixed-mode state (all usage counts zero,
sticky index 0) over a pool of `N` distinct keys with threshold `T ≥ 1`, the
`i`-th `get_next_key` call for `i < N·T` returns the key at pool position
`i / T`: each key is returned `T` times consecutively before the sticky
index advances one position, through the first full sweep of `N·T` calls.
(The claim's indefinite repetition across wraps fails — see the
counterexample — because usage counts are never reset, so after the first
sweep every call advances the index.) -/
theorem c1_amended (keys : List String) (T : Nat) (m : KeyManager)
    (hT : 1 ≤ T) (hnd : keys.Nodup) (hmode : m.usage_mode = "fixed")
    (hkeys : m.api_keys = keys) (hthr : m.usage_threshold = T)
    (hidx : m.current_fixed_key_index = 0)
    (husage : ∀ k, k ∈ keys → dictGetD m.key_usage_counts k = 0)
    (i : Nat) (hi : i < keys.length * T) :
    outputAt m i = keys[i / T]? := by
  have hInv : FixedInv keys T 0 0 m := by
    refine ⟨hmode, hkeys, hthr, hT, by simpa using hidx, ?_⟩
    intro j hj
    have h0 := husage keys[j] (List.getElem_mem hj)
    simpa using h0
  have h1 := fixed_sweep_run keys T hnd i 0 0 m hInv (by simpa using hi)
  simpa using h1

theorem c1_witness : outputAt c1wm 2 = some "K2" := by
  have h := c1_amended ["K1", "K2"] 2 c1wm (by decide) (by decide) rfl rfl rfl rfl
    (fun k hk => dictGetD_initDict ["K1", "K2"] k) 2 (by decide)
  exact h

/-- **C2 counterexample.**  The round-trip is not exact in fixed mode: `c2m`
is reached from a fresh acquire of `[A, B]` by one polling `get_next_key`
call (cycle now resumes at `B`) followed by `set_usage_mode("fixed")`
(sticky index still at `A`).  Releasing captures the next-key hint via
`get_next_key`, which in fixed mode yields the sticky key `A`, so the
re-acquired instance's round-robin cycle resumes at `A` — not at `B` where
the old instance's cycle stood. -/
theorem c2_counterexample :
    get_key_manager_instance cfgPolling (some ["A", "B"]) (some []) LifecycleState.start
      = some (c2m0, c2g1) ∧
    (get_next_key c2m0).map (fun p => (set_usage_mode p.2 "fixed").2) = some c2m ∧
    pollingResume c2m = some "B" ∧
    (get_key_manager_instance cfgPolling (some ["A", "B"]) (some [])
        (reset_key_manager_instance c2g)).map (fun p => pollingResume p.1)
      = some (some "A") ∧
    (some "A" : Option String) ≠ some "B" :=
  ⟨rfl, rfl, rfl, by decide, by decide⟩

theorem mem_of_getElem_opt (l : List String) (i : Nat) (a : String)
    (h : l[i]? = some a) : a ∈ l := by
  obtain ⟨hb, rfl⟩ := List.getElem?_eq_some.mp h
  exact List.getElem_mem hb

theorem mergeCounts_self (newKeys : List String) (old : List (String × Nat))
    (hdom : ∀ k, (dictGet old k).isSome ↔ k ∈ newKeys)
    (hnd : (old.map Prod.fst).Nodup) :
    ∀ k, dictGet (mergeCounts newKeys old) k = dictGet old k := by
  intro k
  rw [mergeCounts_get newKeys old k hnd]
  by_cases hk : k ∈ newKeys
  · rw [if_pos hk]
    obtain ⟨v, hv⟩ := Option.isSome_iff_exists.mp ((hdom k).mpr hk)
    rw [hv]
  · rw [if_neg hk]
    cases ho : dictGet old k with
    | none => rfl
    | some v => exact absurd ((hdom k).mp (by simp [ho])) hk

theorem applyPreservedCounts_self (newKeys : List String) (old : List (String × Nat))
    (hdom : ∀ k, (dictGet old k).isSome ↔ k ∈ newKeys)
    (hnd : (old.map Prod.fst).Nodup) :
    ∀ k, dictGet (applyPreservedCounts (some old) newKeys (initDict newKeys)) k
      = dictGet old k := by
  intro k
  rw [applyPreservedCounts]
  by_cases ht : truthyDict (some old)
  · rw [if_pos ht]
    exact mergeCounts_self newKeys old hdom hnd k
  · rw [if_neg ht]
    have hold : old = [] := by
      cases old with
      | nil => rfl
      | cons p rest => simp [truthyDict] at ht
    subst hold
    rw [dictGet_initDict]
    have hnk : ¬k ∈ newKeys := fun hk => by
      have h2 := (hdom k).mpr hk
      simp [dictGet] at h2
    rw [if_neg hnk]
    rfl

theorem acquire_fields (s : Settings) (aks vks : List String) (g : LifecycleState)
    (hnone : g._singleton_instance = none) :
    ∃ m2 g2, get_key_manager_instance s (some aks) (some vks) g = some (m2, g2) ∧
      m2.api_keys = aks ∧
      m2.key_failure_counts = applyPreservedCounts g._preserved_failure_counts aks (initDict aks) ∧
      m2.key_usage_counts = applyPreservedCounts g._preserved_usage_counts aks (initDict aks) ∧
      m2.current_fixed_key_index = restoredFixedIndex g._preserved_fixed_key_index aks 0 ∧
      m2.key_cycle_pos = restoredCyclePos g._preserved_old_api_keys_for_reset
        g._preserved_next_key_in_cycle aks 0 := by
  rw [get_key_manager_instance.eq_def, hnone]
  exact ⟨_, _, rfl, rfl, rfl, rfl, rfl, rfl⟩

theorem reset_fields (g : LifecycleState) (m : KeyManager)
    (hsing : g._singleton_instance = some m) :
    (reset_key_manager_instance g)._singleton_instance = none ∧
    (reset_key_manager_instance g)._preserved_failure_counts = some m.key_failure_counts ∧
    (reset_key_manager_instance g)._preserved_usage_counts = some m.key_usage_counts ∧
    (reset_key_manager_instance g)._preserved_fixed_key_index = some m.current_fixed_key_index ∧
    (reset_key_manager_instance g)._preserved_old_api_keys_for_reset = some m.api_keys ∧
    (reset_key_manager_instance g)._preserved_next_key_in_cycle =
      (if m.api_keys.isEmpty then ((none : Option String), m)
       else
         match get_next_key m with
         | none => (none, m)
         | some (k, m2) => (some k, m2)).1 := by
  rw [reset_key_manager_instance.eq_def, hsing]
  exact ⟨rfl, rfl, rfl, rfl, rfl, rfl⟩

theorem findStartKeyAux_zero (oldKeys newKeys : List String) (startIdx r : Nat) (c : String)
    (hc : oldKeys[(startIdx + 0) % oldKeys.length]? = some c)
    (hmem : newKeys.contains c) :
    findStartKeyAux oldKeys newKeys startIdx 0 (r + 1) = some c := by
  rw [findStartKeyAux, hc]
  have hm2 : c ∈ newKeys := List.elem_iff.mp hmem
  simp [hm2]

/-- **C2 (amended).**  Release followed by acquire with the identical key
list is an exact round-trip for a manager whose policy mode is `polling` at
release time (with a non-empty primary pool not containing the empty
string, well-formed counter domains, and an in-range sticky index): the new
instance has the same FailureCount map, the same UsageCount map, the same
StickyIndex, and the same round-robin resume key.  In fixed mode the
FailureCount/UsageCount/StickyIndex parts still hold, but the resume point
is overwritten by the sticky key (see the counterexample). -/
theorem c2_amended (s : Settings) (g : LifecycleState) (m : KeyManager)
    (hsing : g._singleton_instance = some m)
    (hmode : m.usage_mode = "polling")
    (hne : m.api_keys ≠ [])
    (hnil : "" ∉ m.api_keys)
    (hfd : ∀ k, (dictGet m.key_failure_counts k).isSome ↔ k ∈ m.api_keys)
    (hfnd : (m.key_failure_counts.map Prod.fst).Nodup)
    (hud : ∀ k, (dictGet m.key_usage_counts k).isSome ↔ k ∈ m.api_keys)
    (hund : (m.key_usage_counts.map Prod.fst).Nodup)
    (hidx : m.current_fixed_key_index < m.api_keys.length) :
    ∃ m2 g2,
      get_key_manager_instance s (some m.api_keys) (some m.vertex_api_keys)
        (reset_key_manager_instance g) = some (m2, g2) ∧
      (∀ k, dictGet m2.key_failure_counts k = dictGet m.key_failure_counts k) ∧
      (∀ k, dictGet m2.key_usage_counts k = dictGet m.key_usage_counts k) ∧
      m2.current_fixed_key_index = m.current_fixed_key_index ∧
      pollingResume m2 = pollingResume m := by
  have hlen : 0 < m.api_keys.length := List.length_pos.mpr hne
  obtain ⟨e1, e2, e3, e4, e5, e6⟩ := reset_fields g m hsing
  obtain ⟨k0, hk0, hstep⟩ := polling_step m hmode hne
  have hk0mem : k0 ∈ m.api_keys := mem_of_getElem_opt _ _ _ hk0
  have hner : m.api_keys.isEmpty = false := by
    cases hae : m.api_keys with
    | nil => exact absurd hae hne
    | cons a l => rfl
  have e6b : (reset_key_manager_instance g)._preserved_next_key_in_cycle = some k0 := by
    rw [e6]
    simp [hner, hstep]
  obtain ⟨m2, g2, hacq, hak, hfc, huc, hfi, hcp⟩ :=
    acquire_fields s m.api_keys m.vertex_api_keys (reset_key_manager_instance g) e1
  have hres : pollingResume m = some k0 := by
    rw [pollingResume, cycleNext, hk0]
    rfl
  obtain ⟨t, ht1, ht2, ht3⟩ := listIndex?_of_mem m.api_keys k0 hk0mem
  refine ⟨m2, g2, hacq, ?_, ?_, ?_, ?_⟩
  · intro k
    rw [hfc, e2]
    exact applyPreservedCounts_self m.api_keys m.key_failure_counts hfd hfnd k
  · intro k
    rw [huc, e3]
    exact applyPreservedCounts_self m.api_keys m.key_usage_counts hud hund k
  · rw [hfi, e4, restoredFixedIndex]
    simp only [hner, Bool.false_eq_true, if_false]
    omega
  · have hk0ne : ¬(k0 = "") := fun hcon => hnil (hcon ▸ hk0mem)
    have hstart : computeStartKey (some m.api_keys) (some k0) m.api_keys = some k0 := by
      rw [computeStartKey, if_pos (by simp [truthyList, truthyStr, hner, hk0ne])]
      simp only [Option.getD_some]
      rw [ht1]
      obtain ⟨L, hL⟩ : ∃ L, m.api_keys.length = L + 1 := ⟨m.api_keys.length - 1, by omega⟩
      rw [hL]
      refine findStartKeyAux_zero m.api_keys m.api_keys t L k0 ?_ (List.elem_iff.mpr hk0mem)
      rw [Nat.add_zero, Nat.mod_eq_of_lt ht2]
      exact ht3
    have hpos : m2.key_cycle_pos = t := by
      rw [hcp, e5, e6b, restoredCyclePos]
      simp only [hstart]
      rw [if_pos (by simp [truthyStr, hk0ne, hner])]
      simp only [Option.getD_some]
      rw [ht1]
      show advanceCycle m.api_keys.length t 0 = t
      rw [advanceCycle_eq m.api_keys.length hlen t 0 hlen, Nat.zero_add,
        Nat.mod_eq_of_lt ht2]
    rw [pollingResume, cycleNext, hak, hpos, Nat.mod_eq_of_lt ht2, ht3, hres]
    rfl

theorem c2_witness :
    (get_key_manager_instance cfgPolling (some ["A", "B"]) (some [])
        (reset_key_manager_instance c2wg)).map (fun p => pollingResume p.1)
      = some (some "A") := by
  obtain ⟨m2, g2, hacq, h1, h2, h3, hres⟩ :=
    c2_amended cfgPolling c2wg c2m0 rfl rfl (by decide) (by decide)
      (fun k => initDict_dom ["A", "B"] k) (by decide)
      (fun k => initDict_dom ["A", "B"] k) (by decide) (by decide)
  have hacq2 : get_key_manager_instance cfgPolling (some ["A", "B"]) (some [])
      (reset_key_manager_instance c2wg) = some (m2, g2) := hacq
  rw [hacq2]
  show some (pollingResume m2) = some (some "A")
  rw [hres]
  rfl

/-- **C6.**  Rehydration partial-match: releasing a manager whose key list is
`[A, B, C]` with failure counts `{A: 0, B: 2, C: 5}` and then acquiring with
`[B, C, D]` yields a manager whose FailureCount map is exactly
`{B: 2, C: 5, D: 0}`: counts of keys present in both epochs are carried
forward, keys new to the pool start at 0, and keys absent from the new pool
are dropped. -/
theorem c6_partial_match (s : Settings) (g : LifecycleState) (m : KeyManager)
    (A B C D : String) (vks : List String)
    (hsing : g._singleton_instance = some m)
    (hkeys : m.api_keys = [A, B, C])
    (hfail : m.key_failure_counts = [(A, 0), (B, 2), (C, 5)])
    (hAB : A ≠ B) (hAC : A ≠ C) (hBC : B ≠ C)
    (hDA : D ≠ A) (hDB : D ≠ B) (hDC : D ≠ C) :
    ∃ m2 g2, get_key_manager_instance s (some [B, C, D]) (some vks)
        (reset_key_manager_instance g) = some (m2, g2) ∧
      ∀ k, dictGet m2.key_failure_counts k =
        (if k = B then some 2 else if k = C then some 5
         else if k = D then some 0 else none) := by
  obtain ⟨e1, e2, e3, e4, e5, e6⟩ := reset_fields g m hsing
  obtain ⟨m2, g2, hacq, hak, hfc, huc, hfi, hcp⟩ :=
    acquire_fields s [B, C, D] vks (reset_key_manager_instance g) e1
  refine ⟨m2, g2, hacq, ?_⟩
  intro k
  rw [hfc, e2, hfail, applyPreservedCounts,
    if_pos (show truthyDict (some [(A, 0), (B, 2), (C, 5)]) = true from rfl)]
  rw [Option.getD_some,
    mergeCounts_get [B, C, D] [(A, 0), (B, 2), (C, 5)] k (by simp [hAB, hAC, hBC])]
  by_cases hkB : k = B
  · have hg : dictGet [(A, 0), (B, 2), (C, 5)] k = some 2 := by
      simp [dictGet, hkB, hAB]
    rw [if_pos (show k ∈ [B, C, D] by simp [hkB]), hg]
    simp [hkB]
  · by_cases hkC : k = C
    · have hg : dictGet [(A, 0), (B, 2), (C, 5)] k = some 5 := by
        simp [dictGet, hkC, hAC, hBC]
      rw [if_pos (show k ∈ [B, C, D] by simp [hkC]), hg]
      simp [hkC, Ne.symm hBC]
    · by_cases hkD : k = D
      · have hg : dictGet [(A, 0), (B, 2), (C, 5)] k = none := by
          simp [dictGet, hkD, Ne.symm hDA, Ne.symm hDB, Ne.symm hDC]
        rw [if_pos (show k ∈ [B, C, D] by simp [hkD]), hg]
        simp [hkD, hDB, hDC]
      · rw [if_neg (by simp [hkB, hkC, hkD])]
        simp [hkB, hkC, hkD]

theorem c6_witness :
    (get_key_manager_instance cfgPolling (some ["B", "C", "D"]) (some [])
        (reset_key_manager_instance c6wg)).map
      (fun p => (dictGet p.1.key_failure_counts "A", dictGet p.1.key_failure_counts "B",
        dictGet p.1.key_failure_counts "C", dictGet p.1.key_failure_counts "D"))
      = some (none, some 2, some 5, some 0) := by
  obtain ⟨m2, g2, hacq, hall⟩ := c6_partial_match cfgPolling c6wg c6wm "A" "B" "C" "D" []
    rfl rfl rfl (by decide) (by decide) (by decide) (by decide) (by decide) (by decide)
  rw [hacq]
  show some (dictGet m2.key_failure_counts "A", dictGet m2.key_failure_counts "B",
    dictGet m2.key_failure_counts "C", dictGet m2.key_failure_counts "D") = _
  rw [hall "A", hall "B", hall "C", hall "D"]
  rfl

end GeminiBalance
